import Mathlib

/-!
Shallow embedding of the akima-interpolator library (JavaScript) over exact
rational arithmetic, together with theorems settling the specification claims.

Source files embedded:
  - src/exceptions.js : the error classes exported by the exceptions module
  - src/util.js       : `binarySearch` and `checkOrder`
  - the main module   : class `SplineInterpolatorAkima` with `createInterpolator`,
    `evaluatePolynomialSegment`, `evaluatePolynomial`, `interpolate`,
    `differentiateThreePoint` and `interpolateHermiteSorted`.

JavaScript numbers are modelled as rationals (ℚ); division by zero is total
(0) in ℚ, which matches the JS behaviour of never raising on division.
Thrown exceptions are modelled with an `Except` monad.
-/

namespace Akima

/-- The five error classes exported by src/exceptions.js, as error kinds. -/
inductive ErrKind where
  | NullArgument
  | DimensionMismatch
  | NumberIsTooSmall
  | OutOfRange
  | MathInternal
deriving DecidableEq, Repr

/-- The export table of src/exceptions.js: class name → error kind.
Any other name (e.g. `NonMonotonicSequenceException`) is not exported. -/
def exceptionExports : String → Option ErrKind := fun s =>
  if s = "NullArgumentException" then some .NullArgument
  else if s = "DimensionMismatchException" then some .DimensionMismatch
  else if s = "NumberIsTooSmallException" then some .NumberIsTooSmall
  else if s = "OutOfRangeException" then some .OutOfRange
  else if s = "MathInternalError" then some .MathInternal
  else none

/-- A thrown JS value: either an error of a kind defined in the exceptions
module, or the TypeError that results from `new E.C(...)` when the module does
not export `C` (the constructor is `undefined`), or a plain `new Error(msg)`. -/
inductive Thrown where
  | raised (k : ErrKind)
  | constructorUndefined (name : String)
  | jsError (msg : String)
deriving DecidableEq, Repr

/-- Construct the value thrown by `throw new E.name(...)`: if the exceptions
module exports `name` the corresponding kind is raised, otherwise the
construction itself fails with `undefined is not a constructor`. -/
def throwFromExceptions (name : String) : Thrown :=
  match exceptionExports name with
  | some k => .raised k
  | none => .constructorUndefined name

/-- src/util.js `OrderDirection.INCREASING` (the JS value is the number 0). -/
def INCREASING : ℕ := 0

/-- src/util.js `OrderDirection.DECREASING` (the JS value is the number 1). -/
def DECREASING : ℕ := 1

/-- The loop of src/util.js `checkOrder`, walking the remaining elements
`rest = val.drop index` and carrying `previous` and `index`.  Returns the
index at which the loop stopped: `val.length` when it ran to completion,
the offending index on an early break, `MathInternalError` when the
direction tag is neither 0 nor 1 (the `default` switch branch). -/
def checkOrderLoop (dir : ℕ) (strict : Bool) : ℚ → ℕ → List ℚ → Except Thrown ℕ
  | _previous, index, [] => .ok index
  | previous, index, v :: rest =>
    match dir with
    | 0 =>
      if strict then
        if v ≤ previous then .ok index
        else checkOrderLoop dir strict v (index + 1) rest
      else
        if v < previous then .ok index
        else checkOrderLoop dir strict v (index + 1) rest
    | 1 =>
      if strict then
        if previous ≤ v then .ok index
        else checkOrderLoop dir strict v (index + 1) rest
      else
        if previous < v then .ok index
        else checkOrderLoop dir strict v (index + 1) rest
    | _ + 2 => .error (.raised .MathInternal)

/-- src/util.js `checkOrder(val, dir, strict, abort)`.  The JS default
`if(!dir) dir = OrderDirection.INCREASING` is the identity on the numeric
tags actually passed (0 stays 0), so `dir` here is the already-defaulted tag.
A call that omits `strict`/`abort` passes `false` for them (undefined is
falsy). -/
def checkOrder (val : List ℚ) (dir : ℕ) (strict abort : Bool) : Except Thrown Bool :=
  match checkOrderLoop dir strict (val.getD 0 0) 1 (val.drop 1) with
  | .error e => .error e
  | .ok index =>
    if index = val.length then .ok true
    else if abort then .error (throwFromExceptions "NonMonotonicSequenceException")
    else .ok false

/-- The adjacent-pair ordering test that `checkOrderLoop` enforces between a
previous and a current element, for each direction/strictness combination
(the loop breaks exactly when this is false). -/
def ordOk (dir : ℕ) (strict : Bool) (previous current : ℚ) : Bool :=
  match dir, strict with
  | 0, true => previous < current
  | 0, false => previous ≤ current
  | 1, true => current < previous
  | 1, false => current ≤ previous
  | _ + 2, _ => true

/-- src/util.js `binarySearch` loop on the index window `[low, high]`.
The JS `(low + high) >>> 1` equals floor division by 2 for the non-negative
in-range index sums that occur; `/` on ℤ is floor division.  The final
`else` branch (NaN detection) is kept verbatim; over ℚ it is unreachable. -/
def binarySearchAux (a : List ℚ) (key : ℚ) (low high : ℤ) : Except Thrown ℤ :=
  if low ≤ high then
    let mid : ℤ := (low + high) / 2
    let midVal : ℚ := a.getD mid.toNat 0
    if midVal < key then
      binarySearchAux a key (mid + 1) high
    else if midVal > key then
      binarySearchAux a key low (mid - 1)
    else if midVal = key then .ok mid
    else .error (.jsError "Invalid number encountered in binary search.")
  else
    .ok (-(low + 1))
termination_by (high + 1 - low).toNat
decreasing_by
  · omega
  · omega

/-- src/util.js `binarySearch(a, key)`. -/
def binarySearch (a : List ℚ) (key : ℚ) : Except Thrown ℤ :=
  binarySearchAux a key 0 ((a.length : ℤ) - 1)

/-- `evaluatePolynomial(c, x)`: Horner evaluation, coefficients in ascending
order.  The JS loop starts from `v = c[n-1]` and folds downward; the fold
below computes the same value (and 0 for the empty list, as the `n == 0`
guard does). -/
def evaluatePolynomial (c : List ℚ) (x : ℚ) : ℚ :=
  c.foldr (fun ci v => x * v + ci) 0

/-- `evaluatePolynomialSegment(xVals, segmentCoeffs, x)`: select the segment
by binary search (insertion points are mapped by `i = -i - 2` and clamped to
`[0, segmentCoeffs.length - 1]`) and evaluate its polynomial at the offset
from the segment's left knot. -/
def evaluatePolynomialSegment (xVals : List ℚ) (segmentCoeffs : List (List ℚ))
    (x : ℚ) : Except Thrown ℚ :=
  match binarySearch xVals x with
  | .error e => .error e
  | .ok i0 =>
    let i1 : ℤ := if i0 < 0 then -i0 - 2 else i0
    let i2 : ℤ := max 0 (min i1 ((segmentCoeffs.length : ℤ) - 1))
    .ok (evaluatePolynomial (segmentCoeffs.getD i2.toNat [])
          (x - xVals.getD i2.toNat 0))

/-- `this.MINIMUM_NUMBER_POINTS` set in the constructor. -/
def MINIMUM_NUMBER_POINTS : ℕ := 5

/-- `Number.EPSILON` = 2⁻⁵², the machine epsilon constant used by the
flat-region guard; it is an exact rational. -/
def NumberEPSILON : ℚ := 1 / 2 ^ 52

/-- The `differences` array of `interpolate`:
`differences[i] = (yvals[i+1] - yvals[i]) / (xvals[i+1] - xvals[i])`. -/
def diff (xvals yvals : List ℚ) (i : ℕ) : ℚ :=
  (yvals.getD (i + 1) 0 - yvals.getD i 0) / (xvals.getD (i + 1) 0 - xvals.getD i 0)

/-- The `weights` array of `interpolate`:
`weights[i] = |differences[i] - differences[i-1]|` for `i ≥ 1`
(`weights[0]` is never read by the algorithm). -/
def weight (xvals yvals : List ℚ) (i : ℕ) : ℚ :=
  |diff xvals yvals i - diff xvals yvals (i - 1)|

/-- `differentiateThreePoint(xvals, yvals, iD, i0, i1, i2)` of the main
module (the local names `x0,x1,x2` for the sampled y-values follow the
source). -/
def differentiateThreePoint (xvals yvals : List ℚ)
    (indexOfDifferentiation indexOfFirstSample indexOfSecondSample
     indexOfThirdSample : ℕ) : ℚ :=
  let x0 := yvals.getD indexOfFirstSample 0
  let x1 := yvals.getD indexOfSecondSample 0
  let x2 := yvals.getD indexOfThirdSample 0
  let t := xvals.getD indexOfDifferentiation 0 - xvals.getD indexOfFirstSample 0
  let t1 := xvals.getD indexOfSecondSample 0 - xvals.getD indexOfFirstSample 0
  let t2 := xvals.getD indexOfThirdSample 0 - xvals.getD indexOfFirstSample 0
  let a := (x2 - x0 - t2 / t1 * (x1 - x0)) / (t2 * t2 - t1 * t2)
  let b := (x1 - x0 - a * t1 * t1) / t1
  2 * a * t + b

/-- The entry `firstDerivatives[i]` computed by `interpolate`.  The source
fills the interior entries `2 ≤ i ≤ n-3` in a loop and then overwrites the
four entries `0, 1, n-2, n-1` with three-point derivatives; for the `n ≥ 5`
inputs that reach this code the two index sets are disjoint, so testing the
boundary indices first yields the same array. -/
def firstDerivativeAt (xvals yvals : List ℚ) (i : ℕ) : ℚ :=
  let n := xvals.length
  if i = 0 then differentiateThreePoint xvals yvals 0 0 1 2
  else if i = 1 then differentiateThreePoint xvals yvals 1 0 1 2
  else if i = n - 2 then
    differentiateThreePoint xvals yvals (n - 2) (n - 3) (n - 2) (n - 1)
  else if i = n - 1 then
    differentiateThreePoint xvals yvals (n - 1) (n - 3) (n - 2) (n - 1)
  else
    let wP := weight xvals yvals (i + 1)
    let wM := weight xvals yvals (i - 1)
    if |wP| < NumberEPSILON ∧ |wM| < NumberEPSILON then
      let xv := xvals.getD i 0
      let xvP := xvals.getD (i + 1) 0
      let xvM := xvals.getD (i - 1) 0
      ((xvP - xv) * diff xvals yvals (i - 1) + (xv - xvM) * diff xvals yvals i)
        / (xvP - xvM)
    else
      (wP * diff xvals yvals (i - 1) + wM * diff xvals yvals i) / (wP + wM)

/-- The full `firstDerivatives` array (length `xvals.length`). -/
def firstDerivatives (xvals yvals : List ℚ) : List ℚ :=
  (List.range xvals.length).map (firstDerivativeAt xvals yvals)

/-- The four ascending coefficients `interpolateHermiteSorted` stores for
segment `i` (the source writes them into a scratch array and saves a
`slice(0)` copy, i.e. a fresh 4-element list per segment). -/
def hermiteCoeffs (xvals yvals fd : List ℚ) (i : ℕ) : List ℚ :=
  let w := xvals.getD (i + 1) 0 - xvals.getD i 0
  let w2 := w * w
  let yv := yvals.getD i 0
  let yvP := yvals.getD (i + 1) 0
  let f := fd.getD i 0
  let fP := fd.getD (i + 1) 0
  [yv, f, (3 * (yvP - yv) / w - 2 * f - fP) / w, (2 * (yv - yvP) / w + f + fP) / w2]

/-- `interpolateHermiteSorted(xvals, yvals, firstDerivatives)` of the main
module: length checks, then one 4-coefficient record per subinterval. -/
def interpolateHermiteSorted (xvals yvals fd : List ℚ) :
    Except Thrown (List (List ℚ)) :=
  if xvals.length ≠ yvals.length then
    .error (throwFromExceptions "DimensionMismatchException")
  else if xvals.length ≠ fd.length then
    .error (throwFromExceptions "DimensionMismatchException")
  else if xvals.length < 2 then
    .error (throwFromExceptions "NumberIsTooSmallException")
  else
    .ok ((List.range (xvals.length - 1)).map (hermiteCoeffs xvals yvals fd))

/-- `interpolate(xvals, yvals)` of the main module.  Absent arguments are
`none`.  Note the call `checkOrder(xvals)`: `dir` is undefined and defaulted
to INCREASING, `strict` and `abort` are undefined hence falsy, and the
returned boolean is discarded. -/
def interpolate (xvals yvals : Option (List ℚ)) :
    Except Thrown (List (List ℚ)) :=
  match xvals, yvals with
  | none, _ => .error (throwFromExceptions "NullArgumentException")
  | some _, none => .error (throwFromExceptions "NullArgumentException")
  | some xs, some ys =>
    if xs.length ≠ ys.length then
      .error (throwFromExceptions "DimensionMismatchException")
    else if xs.length < MINIMUM_NUMBER_POINTS then
      .error (throwFromExceptions "NumberIsTooSmallException")
    else
      match checkOrder xs INCREASING false false with
      | .error e => .error e
      | .ok _ =>
        interpolateHermiteSorted xs ys (firstDerivatives xs ys)

/-- The value captured by the closure returned from `createInterpolator`:
a copy of the knots (`xVals.slice(0)`) and the coefficient table. -/
structure FittedSpline where
  knots : List ℚ
  coeffs : List (List ℚ)

/-- `createInterpolator` viewed as a pure fit: run `interpolate`, then
capture the knot copy and the table. -/
def fitSpline (xvals yvals : List ℚ) : Except Thrown FittedSpline :=
  match interpolate (some xvals) (some yvals) with
  | .error e => .error e
  | .ok segmentCoeffs => .ok ⟨xvals, segmentCoeffs⟩

/-- The closure returned by `createInterpolator`, applied to a query. -/
def FittedSpline.evaluate (s : FittedSpline) (x : ℚ) : Except Thrown ℚ :=
  evaluatePolynomialSegment s.knots s.coeffs x

/-- A store of JS arrays: contents indexed by reference, plus the next fresh
reference.  Used to express that the fitted closure does not alias the
caller's arrays. -/
structure Heap where
  contents : ℕ → List ℚ
  next : ℕ

/-- Overwrite the array at reference `r` (a caller-side mutation). -/
def Heap.write (h : Heap) (r : ℕ) (v : List ℚ) : Heap :=
  ⟨fun r2 => if r2 = r then v else h.contents r2, h.next⟩

/-- Allocate a fresh array holding `v` and return its reference. -/
def Heap.alloc (h : Heap) (v : List ℚ) : Heap × ℕ :=
  (⟨fun r2 => if r2 = h.next then v else h.contents r2, h.next + 1⟩, h.next)

/-- The environment captured by the closure `createInterpolator` returns:
the reference to the freshly allocated `xValsCopy = xVals.slice(0)` and the
(pure) `segmentCoeffs` table. -/
structure Closure where
  xValsCopyRef : ℕ
  segmentCoeffs : List (List ℚ)

/-- `createInterpolator(xVals, yVals)` on the heap model: run `interpolate`
on the current contents of the two references, allocate the defensive copy
of the knots, and capture it together with the table. -/
def createInterpolator (h : Heap) (rx ry : ℕ) : Except Thrown (Heap × Closure) :=
  match interpolate (some (h.contents rx)) (some (h.contents ry)) with
  | .error e => .error e
  | .ok segmentCoeffs =>
    let alloc := h.alloc (h.contents rx)
    .ok (alloc.1, ⟨alloc.2, segmentCoeffs⟩)

/-- Apply the closure to a query under a heap: it reads only its captured
copy of the knots and its captured table. -/
def evalClosure (h : Heap) (c : Closure) (x : ℚ) : Except Thrown ℚ :=
  evaluatePolynomialSegment (h.contents c.xValsCopyRef) c.segmentCoeffs x

/-- The analytic first derivative of the cubic with ascending coefficient
list `c`, evaluated at offset `t` (used to state the C¹ claims about the
segment polynomials). -/
def cubicDeriv (c : List ℚ) (t : ℚ) : ℚ :=
  c.getD 1 0 + 2 * c.getD 2 0 * t + 3 * c.getD 3 0 * t ^ 2

/-- Decidable equality on `Except`, so concrete runs of the embedded
functions can be checked by `decide`. -/
instance exceptDecEq {e a : Type} [DecidableEq e] [DecidableEq a] :
    DecidableEq (Except e a)
  | .error e1, .error e2 => decidable_of_iff (e1 = e2) (by simp)
  | .error _, .ok _ => isFalse (by simp)
  | .ok _, .error _ => isFalse (by simp)
  | .ok a1, .ok a2 => decidable_of_iff (a1 = a2) (by simp)

/-! ### Helper lemmas -/

lemma getD_range_map {α : Type} (f : ℕ → α) (n i : ℕ) (d : α) (hi : i < n) :
    ((List.range n).map f).getD i d = f i := by
  rw [List.getD_eq_getElem _ _ (by simpa using hi)]
  simp

lemma sorted_getD_lt (xs : List ℚ) (hs : xs.Pairwise (· < ·)) {i j : ℕ}
    (hij : i < j) (hj : j < xs.length) : xs.getD i 0 < xs.getD j 0 := by
  rw [List.getD_eq_getElem xs 0 (by omega), List.getD_eq_getElem xs 0 hj]
  exact List.pairwise_iff_getElem.mp hs i j (by omega) hj hij

lemma sorted_getD_le (xs : List ℚ) (hs : xs.Pairwise (· < ·)) {i j : ℕ}
    (hij : i ≤ j) (hj : j < xs.length) : xs.getD i 0 ≤ xs.getD j 0 := by
  rcases Nat.lt_or_ge i j with h | h
  · exact le_of_lt (sorted_getD_lt xs hs h hj)
  · have : i = j := by omega
    rw [this]

lemma checkOrderLoop_dir0_total (strict : Bool) :
    ∀ (rest : List ℚ) (prev : ℚ) (idx : ℕ),
      ∃ r : ℕ, checkOrderLoop 0 strict prev idx rest = .ok r := by
  intro rest
  induction rest with
  | nil => intro prev idx; exact ⟨idx, rfl⟩
  | cons v rest ih =>
    intro prev idx
    simp only [checkOrderLoop]
    cases strict with
    | true =>
      rw [if_pos rfl]
      by_cases hc : v ≤ prev
      · rw [if_pos hc]; exact ⟨idx, rfl⟩
      · rw [if_neg hc]; exact ih v (idx + 1)
    | false =>
      rw [if_neg Bool.false_ne_true]
      by_cases hc : v < prev
      · rw [if_pos hc]; exact ⟨idx, rfl⟩
      · rw [if_neg hc]; exact ih v (idx + 1)

lemma checkOrder_loop_ok (val : List ℚ) (dir : ℕ) (strict abort : Bool) (r : ℕ)
    (hr : checkOrderLoop dir strict (val.getD 0 0) 1 (val.drop 1) = .ok r) :
    checkOrder val dir strict abort =
      if r = val.length then .ok true
      else if abort then .error (throwFromExceptions "NonMonotonicSequenceException")
      else .ok false := by
  rw [checkOrder, hr]

lemma checkOrder_dir0_noerror (val : List ℚ) (strict : Bool) :
    ∃ b : Bool, checkOrder val 0 strict false = .ok b := by
  obtain ⟨r, hr⟩ := checkOrderLoop_dir0_total strict (val.drop 1) (val.getD 0 0) 1
  rw [checkOrder_loop_ok val 0 strict false r hr]
  by_cases h : r = val.length
  · rw [if_pos h]; exact ⟨true, rfl⟩
  · rw [if_neg h]; exact ⟨false, rfl⟩

lemma checkOrderLoop_chain (dir : ℕ) (hdir : dir < 2) (strict : Bool) :
    ∀ (rest : List ℚ) (prev : ℚ) (idx : ℕ),
      ∃ r : ℕ, checkOrderLoop dir strict prev idx rest = .ok r ∧
        (r = idx + rest.length ↔
          List.Chain (fun p c => ordOk dir strict p c = true) prev rest) ∧
        r ≤ idx + rest.length := by
  intro rest
  induction rest with
  | nil =>
    intro prev idx
    refine ⟨idx, rfl, ?_, by omega⟩
    simp
  | cons v rest ih =>
    intro prev idx
    obtain ⟨r, hr, hiff, hb⟩ := ih v (idx + 1)
    interval_cases dir
    · cases strict with
      | true =>
        simp only [checkOrderLoop, if_true]
        by_cases hc : v ≤ prev
        · rw [if_pos hc]
          refine ⟨idx, rfl, ?_, by simp⟩
          constructor
          · intro h; simp at h
          · intro h
            rw [List.chain_cons] at h
            have := h.1
            simp only [ordOk, decide_eq_true_eq] at this
            exact absurd hc (not_le.mpr this)
        · rw [if_neg hc]
          refine ⟨r, hr, ?_, by simp; omega⟩
          rw [List.chain_cons]
          have hrel : ordOk 0 true prev v = true := by
            simp only [ordOk, decide_eq_true_eq]
            exact lt_of_not_le hc
          constructor
          · intro h
            refine ⟨hrel, hiff.mp (by simp at h; omega)⟩
          · intro h
            have := hiff.mpr h.2
            simp
            omega
      | false =>
        simp only [checkOrderLoop, if_false]
        by_cases hc : v < prev
        · rw [if_pos hc]
          refine ⟨idx, rfl, ?_, by simp⟩
          constructor
          · intro h; simp at h
          · intro h
            rw [List.chain_cons] at h
            have := h.1
            simp only [ordOk, decide_eq_true_eq] at this
            exact absurd hc (not_lt.mpr this)
        · rw [if_neg hc]
          refine ⟨r, hr, ?_, by simp; omega⟩
          rw [List.chain_cons]
          have hrel : ordOk 0 false prev v = true := by
            simp only [ordOk, decide_eq_true_eq]
            exact le_of_not_lt hc
          constructor
          · intro h
            refine ⟨hrel, hiff.mp (by simp at h; omega)⟩
          · intro h
            have := hiff.mpr h.2
            simp
            omega
    · cases strict with
      | true =>
        simp only [checkOrderLoop, if_true]
        by_cases hc : prev ≤ v
        · rw [if_pos hc]
          refine ⟨idx, rfl, ?_, by simp⟩
          constructor
          · intro h; simp at h
          · intro h
            rw [List.chain_cons] at h
            have := h.1
            simp only [ordOk, decide_eq_true_eq] at this
            exact absurd hc (not_le.mpr this)
        · rw [if_neg hc]
          refine ⟨r, hr, ?_, by simp; omega⟩
          rw [List.chain_cons]
          have hrel : ordOk 1 true prev v = true := by
            simp only [ordOk, decide_eq_true_eq]
            exact lt_of_not_le hc
          constructor
          · intro h
            refine ⟨hrel, hiff.mp (by simp at h; omega)⟩
          · intro h
            have := hiff.mpr h.2
            simp
            omega
      | false =>
        simp only [checkOrderLoop, if_false]
        by_cases hc : prev < v
        · rw [if_pos hc]
          refine ⟨idx, rfl, ?_, by simp⟩
          constructor
          · intro h; simp at h
          · intro h
            rw [List.chain_cons] at h
            have := h.1
            simp only [ordOk, decide_eq_true_eq] at this
            exact absurd hc (not_lt.mpr this)
        · rw [if_neg hc]
          refine ⟨r, hr, ?_, by simp; omega⟩
          rw [List.chain_cons]
          have hrel : ordOk 1 false prev v = true := by
            simp only [ordOk, decide_eq_true_eq]
            exact le_of_not_lt hc
          constructor
          · intro h
            refine ⟨hrel, hiff.mp (by simp at h; omega)⟩
          · intro h
            have := hiff.mpr h.2
            simp
            omega

lemma checkOrder_abort_violation (val : List ℚ) (dir : ℕ) (hdir : dir < 2)
    (strict : Bool)
    (hviol : ¬ List.Chain' (fun p c => ordOk dir strict p c = true) val) :
    checkOrder val dir strict true =
      .error (.constructorUndefined "NonMonotonicSequenceException") := by
  cases val with
  | nil => exact absurd trivial hviol
  | cons v rest =>
    obtain ⟨r, hr, hiff, hb⟩ := checkOrderLoop_chain dir hdir strict rest v 1
    rw [checkOrder_loop_ok (v :: rest) dir strict true r hr]
    have hne : r ≠ (v :: rest).length := by
      intro hfull
      apply hviol
      have hchain : List.Chain (fun p c => ordOk dir strict p c = true) v rest := by
        apply hiff.mp
        simp at hfull
        omega
      exact hchain
    rw [if_neg hne]
    rfl

lemma bsAux_find (a : List ℚ) (key : ℚ) (hs : a.Pairwise (· < ·)) (i : ℕ)
    (hi : i < a.length) (hkey : a.getD i 0 = key) :
    ∀ (m : ℕ) (low high : ℤ), (high + 1 - low).toNat ≤ m → 0 ≤ low →
      low ≤ (i : ℤ) → (i : ℤ) ≤ high → high ≤ (a.length : ℤ) - 1 →
      binarySearchAux a key low high = .ok (i : ℤ) := by
  intro m
  induction m with
  | zero =>
    intro low high hm h0 hli hih hhl
    omega
  | succ m ih =>
    intro low high hm h0 hli hih hhl
    have hlh : low ≤ high := le_trans hli hih
    have hmlb : low ≤ (low + high) / 2 := by omega
    have hmub : (low + high) / 2 ≤ high := by omega
    have hmnat : ((low + high) / 2).toNat < a.length := by omega
    rw [binarySearchAux.eq_def, if_pos hlh]
    simp only
    rcases lt_trichotomy (a.getD ((low + high) / 2).toNat 0) key with hc | hc | hc
    · rw [if_pos hc]
      have himid : ((low + high) / 2).toNat < i := by
        by_contra hcon
        have hle : a.getD i 0 ≤ a.getD ((low + high) / 2).toNat 0 :=
          sorted_getD_le a hs (by omega) hmnat
        rw [hkey] at hle
        exact absurd hc (not_lt.mpr hle)
      exact ih ((low + high) / 2 + 1) high (by omega) (by omega) (by omega)
        hih hhl
    · have hnlt : ¬ a.getD ((low + high) / 2).toNat 0 < key := by
        rw [hc]; exact lt_irrefl key
      have hngt : ¬ a.getD ((low + high) / 2).toNat 0 > key := by
        rw [hc]; exact lt_irrefl key
      rw [if_neg hnlt, if_neg hngt, if_pos hc]
      have : ((low + high) / 2).toNat = i := by
        by_contra hcon
        rcases Nat.lt_or_ge ((low + high) / 2).toNat i with hlt | hge
        · have := sorted_getD_lt a hs hlt hi
          rw [hkey, hc] at this
          exact lt_irrefl key this
        · have hlt2 : i < ((low + high) / 2).toNat := by omega
          have := sorted_getD_lt a hs hlt2 hmnat
          rw [hkey, hc] at this
          exact lt_irrefl key this
      congr 1
      omega
    · have hnlt : ¬ a.getD ((low + high) / 2).toNat 0 < key := not_lt.mpr (le_of_lt hc)
      rw [if_neg hnlt, if_pos hc]
      have himid : i < ((low + high) / 2).toNat := by
        by_contra hcon
        have hle : a.getD ((low + high) / 2).toNat 0 ≤ a.getD i 0 :=
          sorted_getD_le a hs (by omega) hi
        rw [hkey] at hle
        exact absurd hc (not_lt.mpr hle)
      exact ih low ((low + high) / 2 - 1) (by omega) h0 hli (by omega) (by omega)

lemma bsAux_notfound (a : List ℚ) (key : ℚ) (hs : a.Pairwise (· < ·))
    (hnot : ∀ j : ℕ, j < a.length → a.getD j 0 ≠ key) :
    ∀ (m : ℕ) (low high : ℤ), (high + 1 - low).toNat ≤ m → 0 ≤ low →
      low ≤ high + 1 → high ≤ (a.length : ℤ) - 1 →
      (∀ j : ℕ, j < a.length → (j : ℤ) < low → a.getD j 0 < key) →
      (∀ j : ℕ, j < a.length → high < (j : ℤ) → key < a.getD j 0) →
      ∃ c : ℤ, binarySearchAux a key low high = .ok (-(c + 1)) ∧
        low ≤ c ∧ c ≤ high + 1 ∧
        (∀ j : ℕ, j < a.length → ((j : ℤ) < c → a.getD j 0 < key) ∧
          (c ≤ (j : ℤ) → key < a.getD j 0)) := by
  intro m
  induction m with
  | zero =>
    intro low high hm h0 hle hhl hlow hhigh
    have hterm : ¬ low ≤ high := by omega
    refine ⟨low, ?_, le_refl low, by omega, ?_⟩
    · rw [binarySearchAux.eq_def, if_neg hterm]
    · intro j hj
      exact ⟨hlow j hj, fun hc => hhigh j hj (by omega)⟩
  | succ m ih =>
    intro low high hm h0 hle hhl hlow hhigh
    by_cases hlh : low ≤ high
    · have hmlb : low ≤ (low + high) / 2 := by omega
      have hmub : (low + high) / 2 ≤ high := by omega
      have hmnat : ((low + high) / 2).toNat < a.length := by omega
      rw [binarySearchAux.eq_def, if_pos hlh]
      simp only
      rcases lt_trichotomy (a.getD ((low + high) / 2).toNat 0) key with hc | hc | hc
      · rw [if_pos hc]
        have hlow2 : ∀ j : ℕ, j < a.length → (j : ℤ) < (low + high) / 2 + 1 →
            a.getD j 0 < key := by
          intro j hj hjm
          have : a.getD j 0 ≤ a.getD ((low + high) / 2).toNat 0 :=
            sorted_getD_le a hs (by omega) hmnat
          exact lt_of_le_of_lt this hc
        obtain ⟨c, hres, hc1, hc2, hc3⟩ :=
          ih ((low + high) / 2 + 1) high (by omega) (by omega) (by omega) hhl
            hlow2 hhigh
        exact ⟨c, hres, by omega, hc2, hc3⟩
      · exact absurd hc (hnot ((low + high) / 2).toNat hmnat)
      · have hnlt : ¬ a.getD ((low + high) / 2).toNat 0 < key :=
          not_lt.mpr (le_of_lt hc)
        rw [if_neg hnlt, if_pos hc]
        have hhigh2 : ∀ j : ℕ, j < a.length → (low + high) / 2 - 1 < (j : ℤ) →
            key < a.getD j 0 := by
          intro j hj hjm
          have : a.getD ((low + high) / 2).toNat 0 ≤ a.getD j 0 :=
            sorted_getD_le a hs (by omega) hj
          exact lt_of_lt_of_le hc this
        obtain ⟨c, hres, hc1, hc2, hc3⟩ :=
          ih low ((low + high) / 2 - 1) (by omega) h0 (by omega) (by omega)
            hlow hhigh2
        exact ⟨c, hres, hc1, by omega, hc3⟩
    · have := hm
      refine ⟨low, ?_, le_refl low, by omega, ?_⟩
      · rw [binarySearchAux.eq_def, if_neg hlh]
      · intro j hj
        exact ⟨hlow j hj, fun hc => hhigh j hj (by omega)⟩

lemma bsAux_total (a : List ℚ) (key : ℚ) :
    ∀ (m : ℕ) (low high : ℤ), (high + 1 - low).toNat ≤ m →
      ∃ r : ℤ, binarySearchAux a key low high = .ok r := by
  intro m
  induction m with
  | zero =>
    intro low high hm
    have hterm : ¬ low ≤ high := by omega
    exact ⟨-(low + 1), by rw [binarySearchAux.eq_def, if_neg hterm]⟩
  | succ m ih =>
    intro low high hm
    by_cases hlh : low ≤ high
    · rw [binarySearchAux.eq_def, if_pos hlh]
      simp only
      rcases lt_trichotomy (a.getD ((low + high) / 2).toNat 0) key with hc | hc | hc
      · rw [if_pos hc]
        exact ih ((low + high) / 2 + 1) high (by omega)
      · have hnlt : ¬ a.getD ((low + high) / 2).toNat 0 < key := by
          rw [hc]; exact lt_irrefl key
        have hngt : ¬ a.getD ((low + high) / 2).toNat 0 > key := by
          rw [hc]; exact lt_irrefl key
        rw [if_neg hnlt, if_neg hngt, if_pos hc]
        exact ⟨(low + high) / 2, rfl⟩
      · have hnlt : ¬ a.getD ((low + high) / 2).toNat 0 < key :=
          not_lt.mpr (le_of_lt hc)
        rw [if_neg hnlt, if_pos hc]
        exact ih low ((low + high) / 2 - 1) (by omega)
    · exact ⟨-(low + 1), by rw [binarySearchAux.eq_def, if_neg hlh]⟩

lemma binarySearch_find (a : List ℚ) (key : ℚ) (hs : a.Pairwise (· < ·))
    (i : ℕ) (hi : i < a.length) (hkey : a.getD i 0 = key) :
    binarySearch a key = .ok (i : ℤ) :=
  bsAux_find a key hs i hi hkey a.length 0 ((a.length : ℤ) - 1)
    (by omega) (le_refl 0) (by omega) (by omega) (by omega)

lemma binarySearch_notfound (a : List ℚ) (key : ℚ) (hs : a.Pairwise (· < ·))
    (hnot : ∀ j : ℕ, j < a.length → a.getD j 0 ≠ key) :
    ∃ c : ℤ, binarySearch a key = .ok (-(c + 1)) ∧ 0 ≤ c ∧ c ≤ (a.length : ℤ) ∧
      (∀ j : ℕ, j < a.length → ((j : ℤ) < c → a.getD j 0 < key) ∧
        (c ≤ (j : ℤ) → key < a.getD j 0)) := by
  obtain ⟨c, hres, hc1, hc2, hc3⟩ :=
    bsAux_notfound a key hs hnot a.length 0 ((a.length : ℤ) - 1)
      (by omega) (le_refl 0) (by omega) (by omega)
      (fun j _ hj => absurd hj (by omega))
      (fun j hj hjh => absurd hjh (by omega))
  exact ⟨c, hres, hc1, by omega, hc3⟩

lemma binarySearch_total (a : List ℚ) (key : ℚ) :
    ∃ r : ℤ, binarySearch a key = .ok r :=
  bsAux_total a key a.length 0 ((a.length : ℤ) - 1) (by omega)

lemma evaluatePolynomial_four (c0 c1 c2 c3 t : ℚ) :
    evaluatePolynomial [c0, c1, c2, c3] t = ((c3 * t + c2) * t + c1) * t + c0 := by
  simp [evaluatePolynomial]
  ring

lemma hermiteCoeffs_left (xvals yvals fd : List ℚ) (i : ℕ) :
    evaluatePolynomial (hermiteCoeffs xvals yvals fd i) 0 = yvals.getD i 0 := by
  simp [hermiteCoeffs, evaluatePolynomial]

lemma evalSeg_ok (a : List ℚ) (cs : List (List ℚ)) (x : ℚ) (r : ℤ)
    (hres : binarySearch a x = .ok r) :
    evaluatePolynomialSegment a cs x =
      .ok (evaluatePolynomial
            (cs.getD (max 0 (min (if r < 0 then -r - 2 else r)
              ((cs.length : ℤ) - 1))).toNat [])
            (x - a.getD (max 0 (min (if r < 0 then -r - 2 else r)
              ((cs.length : ℤ) - 1))).toNat 0)) := by
  simp only [evaluatePolynomialSegment, hres]

lemma evalSeg_exact (a : List ℚ) (cs : List (List ℚ)) (hs : a.Pairwise (· < ·))
    (k : ℕ) (hk : k < a.length) (hcs : 1 ≤ cs.length) :
    evaluatePolynomialSegment a cs (a.getD k 0) =
      .ok (evaluatePolynomial (cs.getD (min k (cs.length - 1)) [])
            (a.getD k 0 - a.getD (min k (cs.length - 1)) 0)) := by
  have hbs := binarySearch_find a (a.getD k 0) hs k hk rfl
  rw [evalSeg_ok a cs _ _ hbs]
  rw [if_neg (by omega : ¬ ((k : ℤ) < 0))]
  have hE : (max 0 (min (k : ℤ) ((cs.length : ℤ) - 1))).toNat =
      min k (cs.length - 1) := by omega
  rw [hE]

lemma evalSeg_below (a : List ℚ) (cs : List (List ℚ)) (x : ℚ)
    (hs : a.Pairwise (· < ·)) (hne : 1 ≤ a.length) (_hcs : 1 ≤ cs.length)
    (hx : x < a.getD 0 0) :
    evaluatePolynomialSegment a cs x =
      .ok (evaluatePolynomial (cs.getD 0 []) (x - a.getD 0 0)) := by
  have hnot : ∀ j : ℕ, j < a.length → a.getD j 0 ≠ x := by
    intro j hj hc
    have hle : a.getD 0 0 ≤ a.getD j 0 := sorted_getD_le a hs (by omega) hj
    rw [hc] at hle
    exact absurd hx (not_lt.mpr hle)
  obtain ⟨c, hres, hc0, hclen, hcp⟩ := binarySearch_notfound a x hs hnot
  have hc_eq : c = 0 := by
    by_contra hcn
    have := (hcp 0 (by omega)).1 (by omega)
    exact absurd hx (not_lt.mpr (le_of_lt this))
  rw [evalSeg_ok a cs _ _ hres]
  rw [if_pos (by omega : (-(c + 1) : ℤ) < 0)]
  have hE : (max 0 (min (-(-(c + 1)) - 2) ((cs.length : ℤ) - 1))).toNat = 0 := by
    omega
  rw [hE]

lemma evalSeg_above (a : List ℚ) (cs : List (List ℚ)) (x : ℚ)
    (hs : a.Pairwise (· < ·)) (hne : 2 ≤ a.length)
    (hcs : cs.length = a.length - 1)
    (hx : a.getD (a.length - 1) 0 < x) :
    evaluatePolynomialSegment a cs x =
      .ok (evaluatePolynomial (cs.getD (a.length - 2) [])
            (x - a.getD (a.length - 2) 0)) := by
  have hnot : ∀ j : ℕ, j < a.length → a.getD j 0 ≠ x := by
    intro j hj hc
    have hle : a.getD j 0 ≤ a.getD (a.length - 1) 0 :=
      sorted_getD_le a hs (by omega) (by omega)
    rw [hc] at hle
    exact absurd hx (not_lt.mpr hle)
  obtain ⟨c, hres, hc0, hclen, hcp⟩ := binarySearch_notfound a x hs hnot
  have hc_eq : c = (a.length : ℤ) := by
    by_contra hcn
    have hcle : c ≤ (a.length : ℤ) - 1 := by omega
    have := (hcp (a.length - 1) (by omega)).2 (by omega)
    exact absurd this (not_lt.mpr (le_of_lt hx))
  rw [evalSeg_ok a cs _ _ hres]
  rw [if_pos (by omega : (-(c + 1) : ℤ) < 0)]
  have hE : (max 0 (min (-(-(c + 1)) - 2) ((cs.length : ℤ) - 1))).toNat =
      a.length - 2 := by omega
  rw [hE]

lemma evalSeg_gap (a : List ℚ) (cs : List (List ℚ)) (x : ℚ) (j : ℕ)
    (hs : a.Pairwise (· < ·)) (hj : j + 1 < a.length)
    (hcs : cs.length = a.length - 1)
    (hx1 : a.getD j 0 < x) (hx2 : x < a.getD (j + 1) 0) :
    evaluatePolynomialSegment a cs x =
      .ok (evaluatePolynomial (cs.getD j []) (x - a.getD j 0)) := by
  have hnot : ∀ s : ℕ, s < a.length → a.getD s 0 ≠ x := by
    intro s hsl hc
    rcases Nat.lt_or_ge s (j + 1) with hlt | hge
    · have hle : a.getD s 0 ≤ a.getD j 0 := sorted_getD_le a hs (by omega) (by omega)
      rw [hc] at hle
      exact absurd hx1 (not_lt.mpr hle)
    · have hle : a.getD (j + 1) 0 ≤ a.getD s 0 := sorted_getD_le a hs (by omega) hsl
      rw [hc] at hle
      exact absurd hx2 (not_lt.mpr hle)
  obtain ⟨c, hres, hc0, hclen, hcp⟩ := binarySearch_notfound a x hs hnot
  have hc_eq : c = (j : ℤ) + 1 := by
    have hup : c ≤ (j : ℤ) + 1 := by
      by_contra hcn
      have := (hcp (j + 1) (by omega)).1 (by omega)
      exact absurd hx2 (not_lt.mpr (le_of_lt this))
    have hdown : (j : ℤ) < c := by
      by_contra hcn
      have := (hcp j (by omega)).2 (by omega)
      exact absurd hx1 (not_lt.mpr (le_of_lt this))
    omega
  rw [evalSeg_ok a cs _ _ hres]
  rw [if_pos (by omega : (-(c + 1) : ℤ) < 0)]
  have hE : (max 0 (min (-(-(c + 1)) - 2) ((cs.length : ℤ) - 1))).toNat = j := by
    omega
  rw [hE]

lemma hermite_eval_w (w yv yvP f fP : ℚ) (hw : w ≠ 0) :
    (((2 * (yv - yvP) / w + f + fP) / (w * w) * w +
        (3 * (yvP - yv) / w - 2 * f - fP) / w) * w + f) * w + yv = yvP := by
  field_simp
  ring

lemma hermite_deriv_w (w yv yvP f fP : ℚ) (hw : w ≠ 0) :
    f + 2 * ((3 * (yvP - yv) / w - 2 * f - fP) / w) * w +
      3 * ((2 * (yv - yvP) / w + f + fP) / (w * w)) * w ^ 2 = fP := by
  field_simp
  ring

lemma hermiteCoeffs_right (xvals yvals fd : List ℚ) (i : ℕ)
    (hw : xvals.getD (i + 1) 0 - xvals.getD i 0 ≠ 0) :
    evaluatePolynomial (hermiteCoeffs xvals yvals fd i)
        (xvals.getD (i + 1) 0 - xvals.getD i 0) = yvals.getD (i + 1) 0 := by
  rw [hermiteCoeffs, evaluatePolynomial_four]
  exact hermite_eval_w _ _ _ _ _ hw

lemma hermiteCoeffs_derivLeft (xvals yvals fd : List ℚ) (i : ℕ) :
    cubicDeriv (hermiteCoeffs xvals yvals fd i) 0 = fd.getD i 0 := by
  simp [hermiteCoeffs, cubicDeriv]

lemma hermiteCoeffs_derivRight (xvals yvals fd : List ℚ) (i : ℕ)
    (hw : xvals.getD (i + 1) 0 - xvals.getD i 0 ≠ 0) :
    cubicDeriv (hermiteCoeffs xvals yvals fd i)
        (xvals.getD (i + 1) 0 - xvals.getD i 0) = fd.getD (i + 1) 0 := by
  rw [hermiteCoeffs, cubicDeriv]
  simp only [List.getD_cons_succ, List.getD_cons_zero]
  exact hermite_deriv_w _ _ _ _ _ hw

lemma firstDerivatives_length (xvals yvals : List ℚ) :
    (firstDerivatives xvals yvals).length = xvals.length := by
  simp [firstDerivatives]

lemma firstDerivatives_getD (xvals yvals : List ℚ) (i : ℕ) (hi : i < xvals.length) :
    (firstDerivatives xvals yvals).getD i 0 = firstDerivativeAt xvals yvals i :=
  getD_range_map (firstDerivativeAt xvals yvals) xvals.length i 0 hi

lemma interpolate_ok (xs ys : List ℚ) (hlen : ys.length = xs.length)
    (hn : 5 ≤ xs.length) :
    interpolate (some xs) (some ys) =
      .ok ((List.range (xs.length - 1)).map
            (hermiteCoeffs xs ys (firstDerivatives xs ys))) := by
  obtain ⟨b, hb⟩ := checkOrder_dir0_noerror xs false
  rw [interpolate]
  rw [if_neg (by omega : ¬ xs.length ≠ ys.length)]
  rw [if_neg (by rw [MINIMUM_NUMBER_POINTS]; omega : ¬ xs.length < MINIMUM_NUMBER_POINTS)]
  rw [show INCREASING = 0 from rfl, hb]
  rw [interpolateHermiteSorted]
  rw [if_neg (by omega : ¬ xs.length ≠ ys.length)]
  rw [if_neg (by simp [firstDerivatives_length] :
        ¬ xs.length ≠ (firstDerivatives xs ys).length)]
  rw [if_neg (by omega : ¬ xs.length < 2)]

lemma fitSpline_ok (xs ys : List ℚ) (hlen : ys.length = xs.length)
    (hn : 5 ≤ xs.length) :
    fitSpline xs ys =
      .ok ⟨xs, (List.range (xs.length - 1)).map
            (hermiteCoeffs xs ys (firstDerivatives xs ys))⟩ := by
  rw [fitSpline, interpolate_ok xs ys hlen hn]

lemma fit_table_getD (xs ys : List ℚ) (i : ℕ) (hi : i < xs.length - 1) :
    ((List.range (xs.length - 1)).map
      (hermiteCoeffs xs ys (firstDerivatives xs ys))).getD i [] =
      hermiteCoeffs xs ys (firstDerivatives xs ys) i :=
  getD_range_map (hermiteCoeffs xs ys (firstDerivatives xs ys)) (xs.length - 1) i [] hi

lemma fit_knot_eval (xs ys : List ℚ) (_hlen : ys.length = xs.length)
    (hn : 5 ≤ xs.length) (hsort : xs.Pairwise (· < ·)) (i : ℕ)
    (hi : i < xs.length) :
    evaluatePolynomialSegment xs
      ((List.range (xs.length - 1)).map (hermiteCoeffs xs ys (firstDerivatives xs ys)))
      (xs.getD i 0) = .ok (ys.getD i 0) := by
  set table := (List.range (xs.length - 1)).map
    (hermiteCoeffs xs ys (firstDerivatives xs ys)) with htab
  have hT : table.length = xs.length - 1 := by
    rw [htab]; simp
  rw [evalSeg_exact xs table hsort i hi (by omega)]
  rcases Nat.lt_or_ge i (xs.length - 1) with hlt | hge
  · have hmin : min i (table.length - 1) = i := by omega
    rw [hmin, fit_table_getD xs ys i hlt, sub_self, hermiteCoeffs_left]
  · have hieq : i = xs.length - 1 := by omega
    have hmin : min i (table.length - 1) = xs.length - 2 := by omega
    rw [hmin, fit_table_getD xs ys (xs.length - 2) (by omega)]
    have hsucc : xs.length - 2 + 1 = xs.length - 1 := by omega
    have hw : xs.getD (xs.length - 2 + 1) 0 - xs.getD (xs.length - 2) 0 ≠ 0 := by
      rw [hsucc]
      have := sorted_getD_lt xs hsort (show xs.length - 2 < xs.length - 1 by omega)
        (by omega)
      exact ne_of_gt (by linarith)
    have := hermiteCoeffs_right xs ys (firstDerivatives xs ys) (xs.length - 2) hw
    rw [hsucc] at this
    rw [hieq, this]

lemma threePoint_exists (t1 t2 y0 y1 y2 : ℚ) (h1 : t1 ≠ 0) (h2 : t2 ≠ 0)
    (h21 : t2 - t1 ≠ 0) :
    ∃ A B : ℚ, y1 = y0 + B * t1 + A * t1 ^ 2 ∧ y2 = y0 + B * t2 + A * t2 ^ 2 := by
  have hd : t2 * t2 - t1 * t2 ≠ 0 := by
    have heq : t2 * t2 - t1 * t2 = (t2 - t1) * t2 := by ring
    rw [heq]
    exact mul_ne_zero h21 h2
  refine ⟨(y2 - y0 - t2 / t1 * (y1 - y0)) / (t2 * t2 - t1 * t2),
    (y1 - y0 - (y2 - y0 - t2 / t1 * (y1 - y0)) / (t2 * t2 - t1 * t2) * t1 * t1) / t1,
    ?_, ?_⟩
  · field_simp
    ring
  · field_simp
    ring

lemma threePoint_algebra (t t1 t2 y0 y1 y2 A B : ℚ) (h1 : t1 ≠ 0) (h2 : t2 ≠ 0)
    (h21 : t2 - t1 ≠ 0) (e1 : y1 = y0 + B * t1 + A * t1 ^ 2)
    (e2 : y2 = y0 + B * t2 + A * t2 ^ 2) :
    2 * ((y2 - y0 - t2 / t1 * (y1 - y0)) / (t2 * t2 - t1 * t2)) * t +
      (y1 - y0 - (y2 - y0 - t2 / t1 * (y1 - y0)) / (t2 * t2 - t1 * t2) * t1 * t1) / t1 =
    2 * A * t + B := by
  have hd : t2 * t2 - t1 * t2 ≠ 0 := by
    have heq : t2 * t2 - t1 * t2 = (t2 - t1) * t2 := by ring
    rw [heq]
    exact mul_ne_zero h21 h2
  have ha : (y2 - y0 - t2 / t1 * (y1 - y0)) / (t2 * t2 - t1 * t2) = A := by
    rw [div_eq_iff hd, e1, e2]
    field_simp
    ring
  rw [ha]
  have hb : (y1 - y0 - A * t1 * t1) / t1 = B := by
    rw [div_eq_iff h1, e1]
    ring
  rw [hb]

/- Rational arithmetic is `@[irreducible]` in the library; restore default
reducibility locally so concrete runs of the embedded code reduce under
`decide`. -/
attribute [local semireducible] Rat.add Rat.sub Rat.mul Rat.inv Rat.ofScientific

/-! ### Claim theorems -/

/-- Claim C1 (the spec claim fails on the code; the code contradicts its own
doc comment).  `interpolate` invokes `checkOrder(xvals)` with `strict` and
`abort` undefined (falsy) and discards the result, so the non-strict check
passes on x = [1,2,2,4,5], no `NotStrictlyIncreasing` (nor any other) error
is raised, and fit returns a coefficient table for the duplicated knots. -/
theorem claim_C1_duplicate_knots_accepted :
    interpolate (some [1, 2, 2, 4, 5]) (some [1, 1, 1, 1, 1]) =
      .ok [[1, 0, 0, 0], [1, 0, 0, 0], [1, 0, 0, 0], [1, 0, 0, 0]] ∧
    checkOrder [1, 2, 2, 4, 5] INCREASING false false = .ok true := by
  constructor
  · decide
  · decide

/-- Claim C4: for interior knots `2 ≤ i ≤ n-3` the computed first
derivative is the Akima weighted average of the two neighbouring secant
slopes with weights `wP = weight[i+1]`, `wM = weight[i-1]`, falling back to
the distance-weighted linear blend when both weights are below machine
epsilon in absolute value. -/
theorem claim_C4_interior_derivative_rule (xs ys : List ℚ)
    (hn : 5 ≤ xs.length) (i : ℕ) (h2 : 2 ≤ i) (h3 : i ≤ xs.length - 3) :
    (firstDerivatives xs ys).getD i 0 =
      if |weight xs ys (i + 1)| < NumberEPSILON ∧
          |weight xs ys (i - 1)| < NumberEPSILON then
        ((xs.getD (i + 1) 0 - xs.getD i 0) * diff xs ys (i - 1) +
          (xs.getD i 0 - xs.getD (i - 1) 0) * diff xs ys i) /
          (xs.getD (i + 1) 0 - xs.getD (i - 1) 0)
      else
        (weight xs ys (i + 1) * diff xs ys (i - 1) +
          weight xs ys (i - 1) * diff xs ys i) /
          (weight xs ys (i + 1) + weight xs ys (i - 1)) := by
  rw [firstDerivatives_getD xs ys i (by omega)]
  simp only [firstDerivativeAt]
  rw [if_neg (by omega : ¬ i = 0), if_neg (by omega : ¬ i = 1),
    if_neg (by omega : ¬ i = xs.length - 2),
    if_neg (by omega : ¬ i = xs.length - 1)]

/-- Witness for C4 at a concrete interior knot. -/
theorem claim_C4_witness :
    5 ≤ ([0, 1, 2, 3, 4, 5] : List ℚ).length ∧ 2 ≤ 2 ∧
      2 ≤ ([0, 1, 2, 3, 4, 5] : List ℚ).length - 3 ∧
    (firstDerivatives [0, 1, 2, 3, 4, 5] [0, 1, 0, 1, 0, 1]).getD 2 0 =
      if |weight [0, 1, 2, 3, 4, 5] [0, 1, 0, 1, 0, 1] (2 + 1)| < NumberEPSILON ∧
          |weight [0, 1, 2, 3, 4, 5] [0, 1, 0, 1, 0, 1] (2 - 1)| < NumberEPSILON then
        ((([0, 1, 2, 3, 4, 5] : List ℚ).getD (2 + 1) 0 -
            ([0, 1, 2, 3, 4, 5] : List ℚ).getD 2 0) *
            diff [0, 1, 2, 3, 4, 5] [0, 1, 0, 1, 0, 1] (2 - 1) +
          (([0, 1, 2, 3, 4, 5] : List ℚ).getD 2 0 -
            ([0, 1, 2, 3, 4, 5] : List ℚ).getD (2 - 1) 0) *
            diff [0, 1, 2, 3, 4, 5] [0, 1, 0, 1, 0, 1] 2) /
          (([0, 1, 2, 3, 4, 5] : List ℚ).getD (2 + 1) 0 -
            ([0, 1, 2, 3, 4, 5] : List ℚ).getD (2 - 1) 0)
      else
        (weight [0, 1, 2, 3, 4, 5] [0, 1, 0, 1, 0, 1] (2 + 1) *
            diff [0, 1, 2, 3, 4, 5] [0, 1, 0, 1, 0, 1] (2 - 1) +
          weight [0, 1, 2, 3, 4, 5] [0, 1, 0, 1, 0, 1] (2 - 1) *
            diff [0, 1, 2, 3, 4, 5] [0, 1, 0, 1, 0, 1] 2) /
          (weight [0, 1, 2, 3, 4, 5] [0, 1, 0, 1, 0, 1] (2 + 1) +
            weight [0, 1, 2, 3, 4, 5] [0, 1, 0, 1, 0, 1] (2 - 1)) :=
  ⟨by decide, by decide, by decide,
    claim_C4_interior_derivative_rule [0, 1, 2, 3, 4, 5] [0, 1, 0, 1, 0, 1]
      (by decide) 2 (by decide) (by decide)⟩

/-- Claim C5: the four boundary derivative entries come from three-point
differentiation anchored at knots 0,1,2 (low end) and n-3,n-2,n-1 (high
end), evaluated at the boundary knot's own x; and on samples with pairwise
distinct x the helper returns exactly the derivative `2·A·t + B` of the
unique quadratic `y0 + B·t + A·t²` through the three samples. -/
theorem claim_C5_three_point_boundary (xs ys : List ℚ) (hn : 5 ≤ xs.length)
    (iD i0 i1 i2 : ℕ)
    (h10 : xs.getD i1 0 ≠ xs.getD i0 0)
    (h20 : xs.getD i2 0 ≠ xs.getD i0 0)
    (h21 : xs.getD i2 0 ≠ xs.getD i1 0) :
    ((firstDerivatives xs ys).getD 0 0 = differentiateThreePoint xs ys 0 0 1 2 ∧
     (firstDerivatives xs ys).getD 1 0 = differentiateThreePoint xs ys 1 0 1 2 ∧
     (firstDerivatives xs ys).getD (xs.length - 2) 0 =
       differentiateThreePoint xs ys (xs.length - 2) (xs.length - 3)
         (xs.length - 2) (xs.length - 1) ∧
     (firstDerivatives xs ys).getD (xs.length - 1) 0 =
       differentiateThreePoint xs ys (xs.length - 1) (xs.length - 3)
         (xs.length - 2) (xs.length - 1)) ∧
    (∃ A B : ℚ,
      ys.getD i1 0 = ys.getD i0 0 + B * (xs.getD i1 0 - xs.getD i0 0) +
        A * (xs.getD i1 0 - xs.getD i0 0) ^ 2 ∧
      ys.getD i2 0 = ys.getD i0 0 + B * (xs.getD i2 0 - xs.getD i0 0) +
        A * (xs.getD i2 0 - xs.getD i0 0) ^ 2) ∧
    (∀ A B : ℚ,
      ys.getD i1 0 = ys.getD i0 0 + B * (xs.getD i1 0 - xs.getD i0 0) +
        A * (xs.getD i1 0 - xs.getD i0 0) ^ 2 →
      ys.getD i2 0 = ys.getD i0 0 + B * (xs.getD i2 0 - xs.getD i0 0) +
        A * (xs.getD i2 0 - xs.getD i0 0) ^ 2 →
      differentiateThreePoint xs ys iD i0 i1 i2 =
        2 * A * (xs.getD iD 0 - xs.getD i0 0) + B) := by
  have ht1 : xs.getD i1 0 - xs.getD i0 0 ≠ 0 := sub_ne_zero.mpr h10
  have ht2 : xs.getD i2 0 - xs.getD i0 0 ≠ 0 := sub_ne_zero.mpr h20
  have ht21 : (xs.getD i2 0 - xs.getD i0 0) - (xs.getD i1 0 - xs.getD i0 0) ≠ 0 := by
    intro hc
    exact h21 (by linarith [sub_eq_zero.mp hc])
  refine ⟨⟨?_, ?_, ?_, ?_⟩, ?_, ?_⟩
  · rw [firstDerivatives_getD xs ys 0 (by omega)]
    simp only [firstDerivativeAt]
    rw [if_true]
  · rw [firstDerivatives_getD xs ys 1 (by omega)]
    simp only [firstDerivativeAt]
    rw [if_neg (by omega : ¬ (1 : ℕ) = 0), if_true]
  · rw [firstDerivatives_getD xs ys (xs.length - 2) (by omega)]
    simp only [firstDerivativeAt]
    rw [if_neg (by omega : ¬ xs.length - 2 = 0),
      if_neg (by omega : ¬ xs.length - 2 = 1), if_true]
  · rw [firstDerivatives_getD xs ys (xs.length - 1) (by omega)]
    simp only [firstDerivativeAt]
    rw [if_neg (by omega : ¬ xs.length - 1 = 0),
      if_neg (by omega : ¬ xs.length - 1 = 1),
      if_neg (by omega : ¬ xs.length - 1 = xs.length - 2), if_true]
  · exact threePoint_exists _ _ _ _ _ ht1 ht2 ht21
  · intro A B e1 e2
    simp only [differentiateThreePoint]
    exact threePoint_algebra _ _ _ _ _ _ A B ht1 ht2 ht21 e1 e2

/-- Witness for C5 on a concrete five-knot input. -/
theorem claim_C5_witness :
    5 ≤ ([0, 1, 2, 3, 4] : List ℚ).length ∧
    ([0, 1, 2, 3, 4] : List ℚ).getD 1 0 ≠ ([0, 1, 2, 3, 4] : List ℚ).getD 0 0 ∧
    ([0, 1, 2, 3, 4] : List ℚ).getD 2 0 ≠ ([0, 1, 2, 3, 4] : List ℚ).getD 0 0 ∧
    ([0, 1, 2, 3, 4] : List ℚ).getD 2 0 ≠ ([0, 1, 2, 3, 4] : List ℚ).getD 1 0 ∧
    (∀ A B : ℚ,
      ([5, 7, 11, 2, 3] : List ℚ).getD 1 0 = ([5, 7, 11, 2, 3] : List ℚ).getD 0 0 +
        B * (([0, 1, 2, 3, 4] : List ℚ).getD 1 0 - ([0, 1, 2, 3, 4] : List ℚ).getD 0 0) +
        A * (([0, 1, 2, 3, 4] : List ℚ).getD 1 0 - ([0, 1, 2, 3, 4] : List ℚ).getD 0 0) ^ 2 →
      ([5, 7, 11, 2, 3] : List ℚ).getD 2 0 = ([5, 7, 11, 2, 3] : List ℚ).getD 0 0 +
        B * (([0, 1, 2, 3, 4] : List ℚ).getD 2 0 - ([0, 1, 2, 3, 4] : List ℚ).getD 0 0) +
        A * (([0, 1, 2, 3, 4] : List ℚ).getD 2 0 - ([0, 1, 2, 3, 4] : List ℚ).getD 0 0) ^ 2 →
      differentiateThreePoint [0, 1, 2, 3, 4] [5, 7, 11, 2, 3] 0 0 1 2 =
        2 * A * (([0, 1, 2, 3, 4] : List ℚ).getD 0 0 - ([0, 1, 2, 3, 4] : List ℚ).getD 0 0) + B) :=
  ⟨by decide, by decide, by decide, by decide,
    (claim_C5_three_point_boundary [0, 1, 2, 3, 4] [5, 7, 11, 2, 3] (by decide)
      0 0 1 2 (by decide) (by decide) (by decide)).2.2⟩

/-- Claim C7: `interpolate` raises `NullArgument` on an absent input,
`DimensionMismatch` on differing lengths, `NumberIsTooSmall` below 5
points, succeeds on a 5-point strictly increasing input, and a failing
`interpolate` propagates through `createInterpolator` so no closure is
produced. -/
theorem claim_C7_validation_contract :
    (∀ ys : Option (List ℚ), interpolate none ys = .error (.raised .NullArgument)) ∧
    (∀ xs : List ℚ, interpolate (some xs) none = .error (.raised .NullArgument)) ∧
    (∀ xs ys : List ℚ, xs.length ≠ ys.length →
      interpolate (some xs) (some ys) = .error (.raised .DimensionMismatch)) ∧
    interpolate (some [1, 2, 3, 4, 5]) (some [1, 2, 3]) =
      .error (.raised .DimensionMismatch) ∧
    (∀ xs ys : List ℚ, xs.length = ys.length → xs.length < 5 →
      interpolate (some xs) (some ys) = .error (.raised .NumberIsTooSmall)) ∧
    interpolate (some [1, 2, 3, 4]) (some [1, 2, 3, 4]) =
      .error (.raised .NumberIsTooSmall) ∧
    (∀ xs ys : List ℚ, ys.length = xs.length → xs.length = 5 →
      xs.Pairwise (· < ·) → (interpolate (some xs) (some ys)).isOk = true) ∧
    (interpolate (some [1, 2, 3, 4, 5]) (some [0, 0, 0, 0, 0])).isOk = true ∧
    (∀ (h : Heap) (rx ry : ℕ) (e : Thrown),
      interpolate (some (h.contents rx)) (some (h.contents ry)) = .error e →
      createInterpolator h rx ry = .error e) := by
  refine ⟨fun ys => rfl, fun xs => rfl, ?_, by decide, ?_, by decide, ?_, ?_, ?_⟩
  · intro xs ys hmm
    rw [interpolate, if_pos hmm]
    decide
  · intro xs ys hlen hlt
    rw [interpolate, if_neg (by omega : ¬ xs.length ≠ ys.length),
      if_pos (by rw [MINIMUM_NUMBER_POINTS]; omega : xs.length < MINIMUM_NUMBER_POINTS)]
    decide
  · intro xs ys hlen h5 _hsort
    rw [interpolate_ok xs ys hlen (by omega)]
    rfl
  · rw [interpolate_ok [1, 2, 3, 4, 5] [0, 0, 0, 0, 0] (by decide) (by decide)]
    rfl
  · intro h rx ry e herr
    rw [createInterpolator, herr]

/-- Claim C8: the fitted evaluator is total — for every fitted spline value
and every rational query it returns a value and never an error (the only
throw site, the NaN branch of `binarySearch`, is unreachable over a linear
order). -/
theorem claim_C8_evaluate_total (s : FittedSpline) (x : ℚ) :
    (s.evaluate x).isOk = true := by
  obtain ⟨r, hr⟩ := binarySearch_total s.knots x
  rw [FittedSpline.evaluate, evalSeg_ok s.knots s.coeffs x r hr]
  rfl

/-- Witness for C8 on a concrete fitted-spline value and query. -/
theorem claim_C8_witness :
    ((⟨[0, 1, 2, 3, 4], [[1, 2, 3, 4], [5, 6, 7, 8], [9, 10, 11, 12],
        [13, 14, 15, 16]]⟩ : FittedSpline).evaluate (5 / 2)).isOk = true :=
  claim_C8_evaluate_total
    ⟨[0, 1, 2, 3, 4], [[1, 2, 3, 4], [5, 6, 7, 8], [9, 10, 11, 12], [13, 14, 15, 16]]⟩
    (5 / 2)

/-- Claim C10: on any input violating the requested order, `checkOrder`
with the abort flag does fail, but with the failure of constructing the
undefined `NonMonotonicSequenceException` (not exported by the exceptions
module), never with one of the five defined error kinds; in particular no
`NotStrictlyIncreasing`-style error value exists in the library's error
taxonomy. -/
theorem claim_C10_missing_exception_class (val : List ℚ) (dir : ℕ)
    (hdir : dir < 2) (strict : Bool)
    (hviol : ¬ List.Chain' (fun p c => ordOk dir strict p c = true) val) :
    checkOrder val dir strict true =
      .error (.constructorUndefined "NonMonotonicSequenceException") ∧
    exceptionExports "NonMonotonicSequenceException" = none ∧
    (∀ k : ErrKind, k = .NullArgument ∨ k = .DimensionMismatch ∨
      k = .NumberIsTooSmall ∨ k = .OutOfRange ∨ k = .MathInternal) ∧
    (∀ k : ErrKind, checkOrder val dir strict true ≠ .error (.raised k)) := by
  have h1 := checkOrder_abort_violation val dir hdir strict hviol
  refine ⟨h1, rfl, ?_, ?_⟩
  · intro k
    cases k
    · exact Or.inl rfl
    · exact Or.inr (Or.inl rfl)
    · exact Or.inr (Or.inr (Or.inl rfl))
    · exact Or.inr (Or.inr (Or.inr (Or.inl rfl)))
    · exact Or.inr (Or.inr (Or.inr (Or.inr rfl)))
  · intro k hk
    rw [h1] at hk
    simp at hk

/-- Claim C2: every successful fit on n ≥ 5 strictly increasing knots
reproduces the data values exactly at every knot (exact arithmetic renders
"up to floating-point rounding" as equality, and every value is a finite
rational by construction); in particular the golden scenario fit succeeds
with evaluate(10) = 40, evaluate(80) = 10 and every knot reproduced. -/
theorem claim_C2_knot_reproduction :
    (∀ xs ys : List ℚ, ys.length = xs.length → 5 ≤ xs.length →
      xs.Pairwise (· < ·) →
      ∃ s : FittedSpline, fitSpline xs ys = .ok s ∧
        ∀ i : ℕ, i < xs.length →
          s.evaluate (xs.getD i 0) = .ok (ys.getD i 0)) ∧
    (∃ s : FittedSpline,
      fitSpline [10, 20, 30, 40, 50, 60, 70, 80]
        [40, 10, 17, 39, 99, 120, 30, 10] = .ok s ∧
      s.evaluate 10 = .ok 40 ∧ s.evaluate 80 = .ok 10 ∧
      ∀ i : ℕ, i < 8 →
        s.evaluate (([10, 20, 30, 40, 50, 60, 70, 80] : List ℚ).getD i 0) =
          .ok (([40, 10, 17, 39, 99, 120, 30, 10] : List ℚ).getD i 0)) := by
  have hgen : ∀ xs ys : List ℚ, ys.length = xs.length → 5 ≤ xs.length →
      xs.Pairwise (· < ·) →
      ∃ s : FittedSpline, fitSpline xs ys = .ok s ∧
        ∀ i : ℕ, i < xs.length →
          s.evaluate (xs.getD i 0) = .ok (ys.getD i 0) := by
    intro xs ys hlen hn hsort
    refine ⟨_, fitSpline_ok xs ys hlen hn, ?_⟩
    intro i hi
    exact fit_knot_eval xs ys hlen hn hsort i hi
  refine ⟨hgen, ?_⟩
  obtain ⟨s, hfit, heval⟩ := hgen [10, 20, 30, 40, 50, 60, 70, 80]
    [40, 10, 17, 39, 99, 120, 30, 10] (by decide) (by decide) (by decide)
  refine ⟨s, hfit, ?_, ?_, ?_⟩
  · exact heval 0 (by decide)
  · exact heval 7 (by decide)
  · intro i hi
    exact heval i (by
      rw [show ([10, 20, 30, 40, 50, 60, 70, 80] : List ℚ).length = 8 from rfl]
      exact hi)

/-- Claim C3: each fitted segment polynomial matches the data values and
the computed first-derivative array at both of its knots, so adjacent
segments agree in value and in first derivative at every interior knot. -/
theorem claim_C3_segment_hermite_contract (xs ys : List ℚ)
    (hlen : ys.length = xs.length) (hn : 5 ≤ xs.length)
    (hsort : xs.Pairwise (· < ·)) (i : ℕ) (hi : i + 1 < xs.length) :
    ∃ s : FittedSpline, fitSpline xs ys = .ok s ∧
      evaluatePolynomial (s.coeffs.getD i []) 0 = ys.getD i 0 ∧
      evaluatePolynomial (s.coeffs.getD i []) (xs.getD (i + 1) 0 - xs.getD i 0) =
        ys.getD (i + 1) 0 ∧
      cubicDeriv (s.coeffs.getD i []) 0 = (firstDerivatives xs ys).getD i 0 ∧
      cubicDeriv (s.coeffs.getD i []) (xs.getD (i + 1) 0 - xs.getD i 0) =
        (firstDerivatives xs ys).getD (i + 1) 0 ∧
      (1 ≤ i →
        evaluatePolynomial (s.coeffs.getD (i - 1) [])
            (xs.getD i 0 - xs.getD (i - 1) 0) =
          evaluatePolynomial (s.coeffs.getD i []) 0 ∧
        cubicDeriv (s.coeffs.getD (i - 1) []) (xs.getD i 0 - xs.getD (i - 1) 0) =
          cubicDeriv (s.coeffs.getD i []) 0) := by
  have hw : xs.getD (i + 1) 0 - xs.getD i 0 ≠ 0 := by
    have := sorted_getD_lt xs hsort (Nat.lt_succ_self i) hi
    exact ne_of_gt (by linarith)
  refine ⟨⟨xs, (List.range (xs.length - 1)).map
      (hermiteCoeffs xs ys (firstDerivatives xs ys))⟩,
    fitSpline_ok xs ys hlen hn, ?_, ?_, ?_, ?_, ?_⟩
  · dsimp only
    rw [fit_table_getD xs ys i (by omega), hermiteCoeffs_left]
  · dsimp only
    rw [fit_table_getD xs ys i (by omega),
      hermiteCoeffs_right xs ys (firstDerivatives xs ys) i hw]
  · dsimp only
    rw [fit_table_getD xs ys i (by omega), hermiteCoeffs_derivLeft]
  · dsimp only
    rw [fit_table_getD xs ys i (by omega),
      hermiteCoeffs_derivRight xs ys (firstDerivatives xs ys) i hw]
  · intro h1i
    have hsucc : i - 1 + 1 = i := by omega
    have hw2 : xs.getD (i - 1 + 1) 0 - xs.getD (i - 1) 0 ≠ 0 := by
      rw [hsucc]
      have := sorted_getD_lt xs hsort (show i - 1 < i by omega) (by omega)
      exact ne_of_gt (by linarith)
    constructor
    · have hval := hermiteCoeffs_right xs ys (firstDerivatives xs ys) (i - 1) hw2
      rw [hsucc] at hval
      dsimp only
      rw [fit_table_getD xs ys (i - 1) (by omega), hval,
        fit_table_getD xs ys i (by omega), hermiteCoeffs_left]
    · have hval := hermiteCoeffs_derivRight xs ys (firstDerivatives xs ys) (i - 1) hw2
      rw [hsucc] at hval
      dsimp only
      rw [fit_table_getD xs ys (i - 1) (by omega), hval,
        fit_table_getD xs ys i (by omega), hermiteCoeffs_derivLeft]

/-- Witness for C3 on the golden data at the interior segment i = 3. -/
theorem claim_C3_witness :
    ([40, 10, 17, 39, 99, 120, 30, 10] : List ℚ).length =
      ([10, 20, 30, 40, 50, 60, 70, 80] : List ℚ).length ∧
    5 ≤ ([10, 20, 30, 40, 50, 60, 70, 80] : List ℚ).length ∧
    ([10, 20, 30, 40, 50, 60, 70, 80] : List ℚ).Pairwise (· < ·) ∧
    3 + 1 < ([10, 20, 30, 40, 50, 60, 70, 80] : List ℚ).length ∧
    (∃ s : FittedSpline,
      fitSpline [10, 20, 30, 40, 50, 60, 70, 80]
        [40, 10, 17, 39, 99, 120, 30, 10] = .ok s ∧
      evaluatePolynomial (s.coeffs.getD 3 []) 0 =
        ([40, 10, 17, 39, 99, 120, 30, 10] : List ℚ).getD 3 0 ∧
      evaluatePolynomial (s.coeffs.getD 3 [])
          (([10, 20, 30, 40, 50, 60, 70, 80] : List ℚ).getD (3 + 1) 0 -
            ([10, 20, 30, 40, 50, 60, 70, 80] : List ℚ).getD 3 0) =
        ([40, 10, 17, 39, 99, 120, 30, 10] : List ℚ).getD (3 + 1) 0 ∧
      cubicDeriv (s.coeffs.getD 3 []) 0 =
        (firstDerivatives [10, 20, 30, 40, 50, 60, 70, 80]
          [40, 10, 17, 39, 99, 120, 30, 10]).getD 3 0 ∧
      cubicDeriv (s.coeffs.getD 3 [])
          (([10, 20, 30, 40, 50, 60, 70, 80] : List ℚ).getD (3 + 1) 0 -
            ([10, 20, 30, 40, 50, 60, 70, 80] : List ℚ).getD 3 0) =
        (firstDerivatives [10, 20, 30, 40, 50, 60, 70, 80]
          [40, 10, 17, 39, 99, 120, 30, 10]).getD (3 + 1) 0 ∧
      (1 ≤ 3 →
        evaluatePolynomial (s.coeffs.getD (3 - 1) [])
            (([10, 20, 30, 40, 50, 60, 70, 80] : List ℚ).getD 3 0 -
              ([10, 20, 30, 40, 50, 60, 70, 80] : List ℚ).getD (3 - 1) 0) =
          evaluatePolynomial (s.coeffs.getD 3 []) 0 ∧
        cubicDeriv (s.coeffs.getD (3 - 1) [])
            (([10, 20, 30, 40, 50, 60, 70, 80] : List ℚ).getD 3 0 -
              ([10, 20, 30, 40, 50, 60, 70, 80] : List ℚ).getD (3 - 1) 0) =
          cubicDeriv (s.coeffs.getD 3 []) 0)) :=
  ⟨by decide, by decide, by decide, by decide,
    claim_C3_segment_hermite_contract [10, 20, 30, 40, 50, 60, 70, 80]
      [40, 10, 17, 39, 99, 120, 30, 10] (by decide) (by decide) (by decide)
      3 (by decide)⟩

/-- Claim C6: the evaluator picks the segment by binary search (exact knot
match k clamps to the last segment when k = n-1; a miss takes the segment
left of the insertion point; queries outside the domain clamp to segment 0
or n-2 and extrapolate rather than fail) and returns the Horner evaluation
of the four coefficients at the offset from the segment's left knot. -/
theorem claim_C6_segment_selection (s : FittedSpline) (x : ℚ)
    (hs : s.knots.Pairwise (· < ·)) (hn : 2 ≤ s.knots.length)
    (hc : s.coeffs.length = s.knots.length - 1) :
    (∀ k : ℕ, k < s.knots.length → x = s.knots.getD k 0 →
      s.evaluate x = .ok (evaluatePolynomial
        (s.coeffs.getD (min k (s.knots.length - 2)) [])
        (x - s.knots.getD (min k (s.knots.length - 2)) 0))) ∧
    (x < s.knots.getD 0 0 →
      s.evaluate x = .ok (evaluatePolynomial (s.coeffs.getD 0 [])
        (x - s.knots.getD 0 0))) ∧
    (s.knots.getD (s.knots.length - 1) 0 < x →
      s.evaluate x = .ok (evaluatePolynomial
        (s.coeffs.getD (s.knots.length - 2) [])
        (x - s.knots.getD (s.knots.length - 2) 0))) ∧
    (∀ j : ℕ, j + 1 < s.knots.length →
      s.knots.getD j 0 < x → x < s.knots.getD (j + 1) 0 →
      s.evaluate x = .ok (evaluatePolynomial (s.coeffs.getD j [])
        (x - s.knots.getD j 0))) ∧
    (∀ c0 c1 c2 c3 t : ℚ, evaluatePolynomial [c0, c1, c2, c3] t =
      ((c3 * t + c2) * t + c1) * t + c0) := by
  refine ⟨?_, ?_, ?_, ?_, evaluatePolynomial_four⟩
  · intro k hk hx
    subst hx
    have h := evalSeg_exact s.knots s.coeffs hs k hk (by omega)
    rw [show s.coeffs.length - 1 = s.knots.length - 2 from by omega] at h
    exact h
  · intro hx
    exact evalSeg_below s.knots s.coeffs x hs (by omega) (by omega) hx
  · intro hx
    exact evalSeg_above s.knots s.coeffs x hs hn hc hx
  · intro j hj h1 h2
    exact evalSeg_gap s.knots s.coeffs x j hs hj hc h1 h2

/-- Witness for C6: extrapolation below the domain on a concrete table. -/
theorem claim_C6_witness :
    ([0, 1, 2, 3, 4, 5, 6, 7] : List ℚ).Pairwise (· < ·) ∧
    2 ≤ ([0, 1, 2, 3, 4, 5, 6, 7] : List ℚ).length ∧
    ([[1, 0, 0, 0], [2, 0, 0, 0], [3, 0, 0, 0], [4, 0, 0, 0], [5, 0, 0, 0],
      [6, 0, 0, 0], [7, 0, 0, 0]] : List (List ℚ)).length =
      ([0, 1, 2, 3, 4, 5, 6, 7] : List ℚ).length - 1 ∧
    ((-5 : ℚ) < ([0, 1, 2, 3, 4, 5, 6, 7] : List ℚ).getD 0 0 →
      (⟨[0, 1, 2, 3, 4, 5, 6, 7],
        [[1, 0, 0, 0], [2, 0, 0, 0], [3, 0, 0, 0], [4, 0, 0, 0], [5, 0, 0, 0],
         [6, 0, 0, 0], [7, 0, 0, 0]]⟩ : FittedSpline).evaluate (-5) =
        .ok (evaluatePolynomial
          (([[1, 0, 0, 0], [2, 0, 0, 0], [3, 0, 0, 0], [4, 0, 0, 0], [5, 0, 0, 0],
             [6, 0, 0, 0], [7, 0, 0, 0]] : List (List ℚ)).getD 0 [])
          ((-5) - ([0, 1, 2, 3, 4, 5, 6, 7] : List ℚ).getD 0 0))) :=
  ⟨by decide, by decide, by decide,
    (claim_C6_segment_selection
      ⟨[0, 1, 2, 3, 4, 5, 6, 7],
        [[1, 0, 0, 0], [2, 0, 0, 0], [3, 0, 0, 0], [4, 0, 0, 0], [5, 0, 0, 0],
         [6, 0, 0, 0], [7, 0, 0, 0]]⟩ (-5)
      (by decide) (by decide) (by decide)).2.1⟩

/-- Claim C9: the fitted closure keeps a defensive copy of the knots in a
freshly allocated cell and depends on the values only through the
precomputed table, so writing to either caller array after a successful
fit never changes what the closure evaluates to. -/
theorem claim_C9_defensive_copy (h : Heap) (rx ry : ℕ)
    (hrx : rx < h.next) (hry : ry < h.next) (h2 : Heap) (c : Closure)
    (hfit : createInterpolator h rx ry = .ok (h2, c)) (v : List ℚ) (x : ℚ) :
    evalClosure (h2.write rx v) c x = evalClosure h2 c x ∧
    evalClosure (h2.write ry v) c x = evalClosure h2 c x := by
  rw [createInterpolator] at hfit
  cases hint : interpolate (some (h.contents rx)) (some (h.contents ry)) with
  | error e =>
    rw [hint] at hfit
    exact absurd hfit (by simp)
  | ok cs =>
    rw [hint] at hfit
    injection hfit with hpair
    injection hpair with hh2 hc
    subst hh2
    subst hc
    constructor
    · simp [evalClosure, Heap.write, Heap.alloc, show h.next ≠ rx from by omega]
    · simp [evalClosure, Heap.write, Heap.alloc, show h.next ≠ ry from by omega]

/-- Witness for C9 on a concrete two-array heap. -/
theorem claim_C9_witness :
    (0 : ℕ) < (⟨fun r => if r = 0 then [0, 1, 2, 3, 4] else [0, 0, 0, 0, 0],
      2⟩ : Heap).next ∧
    (1 : ℕ) < (⟨fun r => if r = 0 then [0, 1, 2, 3, 4] else [0, 0, 0, 0, 0],
      2⟩ : Heap).next ∧
    ∃ (h2 : Heap) (c : Closure),
      createInterpolator
        ⟨fun r => if r = 0 then [0, 1, 2, 3, 4] else [0, 0, 0, 0, 0], 2⟩ 0 1 =
        .ok (h2, c) ∧
      evalClosure (h2.write 0 [9, 9, 9, 9, 9]) c 3 = evalClosure h2 c 3 ∧
      evalClosure (h2.write 1 [9, 9, 9, 9, 9]) c 3 = evalClosure h2 c 3 := by
  refine ⟨by decide, by decide, _, _, rfl, ?_⟩
  exact claim_C9_defensive_copy
    ⟨fun r => if r = 0 then [0, 1, 2, 3, 4] else [0, 0, 0, 0, 0], 2⟩ 0 1
    (by decide) (by decide) _ _ rfl [9, 9, 9, 9, 9] 3

/-- Witness for C10 on the spec's duplicate-knot example with the strict
increasing check and the abort flag set. -/
theorem claim_C10_witness :
    (0 : ℕ) < 2 ∧
    (¬ List.Chain' (fun p c => ordOk 0 true p c = true) [(1 : ℚ), 2, 2, 4, 5]) ∧
    (checkOrder [(1 : ℚ), 2, 2, 4, 5] 0 true true =
      .error (.constructorUndefined "NonMonotonicSequenceException") ∧
    exceptionExports "NonMonotonicSequenceException" = none ∧
    (∀ k : ErrKind, k = .NullArgument ∨ k = .DimensionMismatch ∨
      k = .NumberIsTooSmall ∨ k = .OutOfRange ∨ k = .MathInternal) ∧
    (∀ k : ErrKind, checkOrder [(1 : ℚ), 2, 2, 4, 5] 0 true true ≠ .error (.raised k))) := by
  have hviol : ¬ List.Chain' (fun p c => ordOk 0 true p c = true) [(1 : ℚ), 2, 2, 4, 5] := by
    simp only [List.chain'_cons, ordOk, decide_eq_true_eq]
    norm_num
  exact ⟨by norm_num, hviol,
    claim_C10_missing_exception_class [(1 : ℚ), 2, 2, 4, 5] 0 (by norm_num) true hviol⟩

end Akima
